import Mathlib

set_option maxHeartbeats 1000000

/-!
Verification development for the Connect Four engine
(frontend/src/board.js, ai.js, app.js).

The board is a 6 by 7 grid; cell values are 0 (empty), 1 (Red, player 1),
2 (Yellow, player 2 / AI).  Row 0 is the top row, row 5 the bottom row.
JavaScript in-place mutation is rendered as explicit state passing:
functions that mutate the board in the source return the updated board
here.  JavaScript numbers used as indices and sentinels (including -1)
are rendered as Int; cell contents as Nat.
-/

/-- Number of board rows, ROWS in board.js. -/
def ROWS : Nat := 6

/-- Number of board columns, COLS in board.js. -/
def COLS : Nat := 7

/-- Length of a winning run, WIN_LENGTH in board.js. -/
def WIN_LENGTH : Nat := 4

/-- A board: 6 rows by 7 columns of cells (0 empty, 1 Red, 2 Yellow). -/
abbrev Board := Fin 6 → Fin 7 → Nat

/-- createBoard from board.js: every cell empty. -/
def createBoard : Board := fun _ _ => 0

/-- cloneBoard from board.js: a deep copy, which in this functional
embedding is the identity. -/
def cloneBoard (b : Board) : Board := b

/-- Reads cell (r, c) with the bounds checks the source performs before
indexing: an out-of-range index yields none (undefined in JavaScript). -/
def getCellI (b : Board) (r c : Int) : Option Nat :=
  if hr : 0 ≤ r ∧ r < 6 then
    if hc : 0 ≤ c ∧ c < 7 then
      some (b ⟨r.toNat, by omega⟩ ⟨c.toNat, by omega⟩)
    else none
  else none

/-- Writes cell (r, c).  The source only ever writes in-range indices. -/
def setCellI (b : Board) (r c : Int) (v : Nat) : Board :=
  fun r0 c0 => if (r0.val : Int) = r ∧ (c0.val : Int) = c then v else b r0 c0

/-- The scan loop of getLowestEmptyRow: with fuel n it checks rows
n-1, n-2, ..., 0 in that order (so fuel 6 checks the bottom row 5 first,
matching the downward-counting for-loop) and returns the first empty row
found. -/
def scanRow (b : Board) (c : Fin 7) : Nat → Option (Fin 6)
  | 0 => none
  | n + 1 =>
    if h : n < 6 then
      if b ⟨n, h⟩ c = 0 then some ⟨n, h⟩ else scanRow b c n
    else scanRow b c n

/-- getLowestEmptyRow from board.js: validates the column index, then scans
from the bottom row upward; -1 when the column is out of range or full. -/
def getLowestEmptyRow (b : Board) (col : Int) : Int :=
  if h : col < 0 ∨ 7 ≤ col then -1
  else
    match scanRow b ⟨col.toNat, by omega⟩ 6 with
    | some r => (r.val : Int)
    | none => -1

/-- Result of dropDisc: the success flag and row of the source, plus the
board after the call (the source mutates its argument in place). -/
structure DropResult where
  success : Bool
  row : Int
  board : Board

/-- dropDisc from board.js. -/
def dropDisc (b : Board) (col : Int) (player : Nat) : DropResult :=
  let row := getLowestEmptyRow b col
  if row = -1 then ⟨false, -1, b⟩
  else ⟨true, row, setCellI b row col player⟩

/-- isColumnFull from board.js: the top cell of the column is occupied.
The source reads board[0][col] without a range check; an out-of-range
column reads undefined, which is not 0, so the function answers true. -/
def isColumnFull (b : Board) (col : Int) : Bool :=
  getCellI b 0 col != some 0

/-- isBoardFull from board.js: every top-row cell is occupied. -/
def isBoardFull (b : Board) : Bool :=
  (List.finRange 7).all (fun c => b 0 c != 0)

/-- getAvailableMoves from board.js: the non-full columns in ascending
order. -/
def getAvailableMoves (b : Board) : List Int :=
  ((List.range 7).map (fun n => (n : Int))).filter (fun c => !(isColumnFull b c))

/-- One arm of the extension loops in checkWin: the cells
(sr + dr * i, sc + dc * i) for i = i0, i0 + 1, ... in discovery order,
stopping at the first out-of-range or non-player cell, with at most the
given fuel many steps.  The backward loop of the source is this scan with
negated deltas. -/
def scanDir (b : Board) (player : Nat) (sr sc dr dc : Int) : Nat → Nat → List (Int × Int)
  | _, 0 => []
  | i, fuel + 1 =>
    match getCellI b (sr + dr * (i : Int)) (sc + dc * (i : Int)) with
    | some v =>
      if v = player then
        (sr + dr * (i : Int), sc + dc * (i : Int)) ::
          scanDir b player sr sc dr dc (i + 1) fuel
      else []
    | none => []

/-- Result of checkWin. -/
structure WinResult where
  win : Bool
  line : List (Int × Int)

/-- One direction of checkWin: forward extension from the start cell,
then, only when the count is still short of WIN_LENGTH, backward
extension with cells prepended (the unshift of the source).  Returns the
count and the assembled line. -/
def checkDir (b : Board) (player : Nat) (sr sc dr dc : Int) : Nat × List (Int × Int) :=
  let f := scanDir b player sr sc dr dc 1 3
  let count := 1 + f.length
  let line := (sr, sc) :: f
  if count < 4 then
    let bw := scanDir b player sr sc (-dr) (-dc) 1 3
    (count + bw.length, bw.reverse ++ line)
  else (count, line)

/-- The four axis directions of checkWin, in source order. -/
def directions : List (Int × Int) := [(0, 1), (1, 0), (1, 1), (1, -1)]

/-- The direction loop of checkWin: the first direction reaching count at
least WIN_LENGTH wins, and the line is truncated to its first 4 cells. -/
def checkWinDirs (b : Board) (player : Nat) (sr sc : Int) : List (Int × Int) → WinResult
  | [] => ⟨false, []⟩
  | d :: rest =>
    let cl := checkDir b player sr sc d.1 d.2
    if 4 ≤ cl.1 then ⟨true, cl.2.take 4⟩
    else checkWinDirs b player sr sc rest

/-- checkWin from board.js. -/
def checkWin (b : Board) (sr sc : Int) (player : Nat) : WinResult :=
  checkWinDirs b player sr sc directions

/-- Row-major list of all cells, matching the nested row/column loops of
evaluateBoard (board.js) and the win scan of minimax (ai.js). -/
def allCells : List (Fin 6 × Fin 7) :=
  (List.finRange 6).bind (fun r => (List.finRange 7).map (fun c => (r, c)))

/-- Per-cell step of the win scans in evaluateBoard and minimax: the cell
is tested as a p-anchored win first, then as a q-anchored win. -/
def cellWinFlag (b : Board) (p q : Nat) (rc : Fin 6 × Fin 7) : Option Bool :=
  if b rc.1 rc.2 = p ∧ (checkWin b (rc.1.val : Int) (rc.2.val : Int) p).win then some true
  else if b rc.1 rc.2 = q ∧ (checkWin b (rc.1.val : Int) (rc.2.val : Int) q).win then some false
  else none

/-- The row-major win scan shared by evaluateBoard and minimax: the first
cell anchoring a win decides the outcome (true for p, false for q). -/
def firstWinScan (b : Board) (p q : Nat) : Option Bool :=
  allCells.findSome? (cellWinFlag b p q)

/-- Reads cell (r, c) by Nat indices; the heuristic loops below only use
in-range indices, exactly as the source loops do. -/
def cellN (b : Board) (r c : Nat) : Nat :=
  if h : r < 6 ∧ c < 7 then b ⟨r, h.1⟩ ⟨c, h.2⟩ else 0

/-- Center-column term of evaluateBoard: +3 per p token and -3 per q token
in column 3. -/
def centerScore (b : Board) (p q : Nat) : Int :=
  ((List.range 6).map (fun r =>
    if cellN b r 3 = p then (3 : Int) else if cellN b r 3 = q then -3 else 0)).sum

/-- Contribution of one adjacent pair of cells: +2 when both are p,
-2 when both are q (the two independent if-statements of the source). -/
def pairScore (b : Board) (p q : Nat) (r1 c1 r2 c2 : Nat) : Int :=
  (if cellN b r1 c1 = p ∧ cellN b r2 c2 = p then (2 : Int) else 0) +
  (if cellN b r1 c1 = q ∧ cellN b r2 c2 = q then (-2 : Int) else 0)

/-- Row-major index pairs (r, c) with r below the given row bound and c
below the given column bound: the iteration space of the nested pair
loops of evaluateBoard. -/
def rcPairs (rows cols : Nat) : List (Nat × Nat) :=
  (List.range rows).bind (fun r => (List.range cols).map (fun c => (r, c)))

/-- Horizontal adjacent-pair term of evaluateBoard: rows 0-5, columns
0-5, partner one column right. -/
def horizScore (b : Board) (p q : Nat) : Int :=
  ((rcPairs 6 6).map (fun rc => pairScore b p q rc.1 rc.2 rc.1 (rc.2 + 1))).sum

/-- Vertical adjacent-pair term of evaluateBoard: rows 0-4, columns 0-6,
partner one row down. -/
def vertScore (b : Board) (p q : Nat) : Int :=
  ((rcPairs 5 7).map (fun rc => pairScore b p q rc.1 rc.2 (rc.1 + 1) rc.2)).sum

/-- Down-right diagonal adjacent-pair term of evaluateBoard: rows 0-4,
columns 0-5, partner one row down and one column right. -/
def diagRScore (b : Board) (p q : Nat) : Int :=
  ((rcPairs 5 6).map (fun rc => pairScore b p q rc.1 rc.2 (rc.1 + 1) (rc.2 + 1))).sum

/-- Down-left diagonal adjacent-pair term of evaluateBoard: rows 0-4,
columns 1-6, partner one row down and one column left. -/
def diagLScore (b : Board) (p q : Nat) : Int :=
  ((rcPairs 5 6).map (fun rc => pairScore b p q rc.1 (rc.2 + 1) (rc.1 + 1) rc.2)).sum

/-- evaluateBoard from board.js: the win scan dominates, otherwise the
center-column and adjacent-pair heuristic terms are summed. -/
def evaluateBoard (b : Board) (player : Nat) : Int :=
  match firstWinScan b player (if player = 1 then 2 else 1) with
  | some true => 10000
  | some false => -10000
  | none =>
    centerScore b player (if player = 1 then 2 else 1) +
      horizScore b player (if player = 1 then 2 else 1) +
      vertScore b player (if player = 1 then 2 else 1) +
      diagRScore b player (if player = 1 then 2 else 1) +
      diagLScore b player (if player = 1 then 2 else 1)

/-!
AI module (ai.js).  Math.random appears only in the easy tier and in the
unreachable fallback of the medium tier; it is rendered as an extra Nat
argument rnd, with the uniformly distributed index
Math.floor(Math.random() * availableMoves.length), a value in
[0, availableMoves.length), rendered as rnd % availableMoves.length.
JavaScript plus and minus infinity (the alpha, beta and best-score
sentinels) are rendered as the bottom and top of WithBot (WithTop Int).
-/

/-- Scores extended with the plus and minus infinity sentinels of ai.js. -/
abbrev EInt := WithBot (WithTop Int)

/-- Embeds a finite score. -/
def toEInt (n : Int) : EInt := ((n : WithTop Int) : EInt)

/-- getEasyMove from ai.js: a uniformly random element of the legal
column list. -/
def getEasyMove (availableMoves : List Int) (rnd : Nat) : Int :=
  availableMoves.getD (rnd % availableMoves.length) 0

/-- The win-checking loops of getMediumMove: the first column in the list
whose simulated drop for the given player makes checkWin report a win at
the landing cell. -/
def findWinningCol (b : Board) (who : Nat) : List Int → Option Int
  | [] => none
  | c :: rest =>
    let res := dropDisc (cloneBoard b) c who
    if res.success ∧ (checkWin res.board res.row c who).win then some c
    else findWinningCol b who rest

/-- Center-out column preference order of getMediumMove. -/
def centerOrder : List Int := [3, 2, 4, 1, 5, 0, 6]

/-- The preference loop of getMediumMove: the first preferred column that
is among the available moves. -/
def firstCenterCol (availableMoves : List Int) : List Int → Option Int
  | [] => none
  | c :: rest =>
    if c ∈ availableMoves then some c else firstCenterCol availableMoves rest

/-- getMediumMove from ai.js: win, block, center preference, random
fallback, in that order. -/
def getMediumMove (b : Board) (availableMoves : List Int) (aiPlayer : Nat) (rnd : Nat) : Int :=
  match findWinningCol b aiPlayer availableMoves with
  | some c => c
  | none =>
    match findWinningCol b (if aiPlayer = 1 then 2 else 1) availableMoves with
    | some c => c
    | none =>
      match firstCenterCol availableMoves centerOrder with
      | some c => c
      | none => getEasyMove availableMoves rnd

/-- The maximizing move loop of minimax, with the alpha update and the
beta cutoff; rec is the recursive minimax call at one less depth. -/
def maxLoop (rec : Board → EInt → EInt → EInt) (b : Board) (p : Nat) :
    List Int → EInt → EInt → EInt → EInt
  | [], _, _, best => best
  | c :: rest, alpha, beta, best =>
    let res := dropDisc (cloneBoard b) c p
    if res.success then
      let score := rec res.board alpha beta
      let best2 := max best score
      let alpha2 := max alpha score
      if beta ≤ alpha2 then best2
      else maxLoop rec b p rest alpha2 beta best2
    else maxLoop rec b p rest alpha beta best

/-- The minimizing move loop of minimax, with the beta update and the
same cutoff condition. -/
def minLoop (rec : Board → EInt → EInt → EInt) (b : Board) (q : Nat) :
    List Int → EInt → EInt → EInt → EInt
  | [], _, _, best => best
  | c :: rest, alpha, beta, best =>
    let res := dropDisc (cloneBoard b) c q
    if res.success then
      let score := rec res.board alpha beta
      let best2 := min best score
      let beta2 := min beta score
      if beta2 ≤ alpha then best2
      else minLoop rec b q rest alpha beta2 best2
    else minLoop rec b q rest alpha beta best

/-- minimax from ai.js: depth 0 returns the evaluator score, otherwise
the win scan decides terminal positions (10000 + depth for the searching
side, -10000 - depth for the opponent), an empty move list is a draw
worth 0, and otherwise the maximizing or minimizing loop runs. -/
def minimax (b : Board) (d : Nat) (isMaximizing : Bool) (aiPlayer opponent : Nat)
    (alpha beta : EInt) : EInt :=
  match d with
  | 0 => toEInt (evaluateBoard b aiPlayer)
  | dd + 1 =>
    match firstWinScan b aiPlayer opponent with
    | some true => toEInt (10000 + ((dd : Int) + 1))
    | some false => toEInt (-10000 - ((dd : Int) + 1))
    | none =>
      if (getAvailableMoves b).length = 0 then toEInt 0
      else if isMaximizing then
        maxLoop (fun b2 a2 b3 => minimax b2 dd false aiPlayer opponent a2 b3)
          b aiPlayer (getAvailableMoves b) alpha beta ⊥
      else
        minLoop (fun b2 a2 b3 => minimax b2 dd true aiPlayer opponent a2 b3)
          b opponent (getAvailableMoves b) alpha beta ⊤

/-- The best-move fold of getHardMove: keeps the first column whose
minimax score strictly exceeds the best seen so far. -/
def hardLoop (b : Board) (aiPlayer opponent : Nat) (depth : Nat) :
    List Int → EInt → Int → Int
  | [], _, bestMove => bestMove
  | c :: rest, bestScore, bestMove =>
    let res := dropDisc (cloneBoard b) c aiPlayer
    if res.success then
      let score := minimax res.board (depth - 1) false aiPlayer opponent ⊥ ⊤
      if bestScore < score then hardLoop b aiPlayer opponent depth rest score c
      else hardLoop b aiPlayer opponent depth rest bestScore bestMove
    else hardLoop b aiPlayer opponent depth rest bestScore bestMove

/-- getHardMove from ai.js at its default depth 5: the best move starts
as the first available column and is improved by the fold. -/
def getHardMove (b : Board) (availableMoves : List Int) (aiPlayer : Nat) : Int :=
  hardLoop b aiPlayer (if aiPlayer = 1 then 2 else 1) 5 availableMoves ⊥
    (availableMoves.headD 0)

/-- getAIMove from ai.js: -1 when no moves are available, otherwise the
tier selected by the difficulty string, any unrecognized string falling
back to the easy tier. -/
def getAIMove (b : Board) (difficulty : String) (aiPlayer : Nat) (rnd : Nat) : Int :=
  let availableMoves := getAvailableMoves b
  if availableMoves.length = 0 then -1
  else if difficulty = "easy" then getEasyMove availableMoves rnd
  else if difficulty = "medium" then getMediumMove b availableMoves aiPlayer rnd
  else if difficulty = "hard" then getHardMove b availableMoves aiPlayer
  else getEasyMove availableMoves rnd

/-!
Session controller (app.js).  The module-level game state of app.js is
gathered into a Session record; DOM rendering, sounds, console logging,
history persistence and the animation awaits are presentation effects
with no bearing on this state and are elided.  The undo stack and the
move log are lists whose head and tail ends mirror the push and pop ends
of the source arrays (push is cons on the undo stack, append on the move
log).
-/

/-- An undo checkpoint, as pushed by makeMove and makeAIMove. -/
structure Checkpoint where
  board : Board
  player : Nat
  moveHistoryLength : Nat

/-- A move-log record, with the fields app.js passes to createMoveObject
that concern game state (the cosmetic AI face fields are elided). -/
structure MoveRec where
  moveNumber : Nat
  player : Nat
  col : Int
  row : Int
  boardSnapshot : Board

/-- The module-level session state of app.js that move handling touches. -/
structure Session where
  board : Board
  currentPlayer : Nat
  gameMode : String
  isGameActive : Bool
  isAnimating : Bool
  moveHistory : List MoveRec
  undoStack : List Checkpoint

/-- handleGameOver from app.js, restricted to the modeled state: the game
becomes inactive (the animation flag is set and cleared within the call,
and the caller clears it again right after). -/
def handleGameOver (s : Session) : Session :=
  { s with isGameActive := false, isAnimating := false }

/-- makeMove from app.js: after the animation guard it pushes an undo
checkpoint, drops the disc, and on success appends the move record,
checks for a win, then a draw, and otherwise flips the current player.
On a failed drop it returns with the animation flag cleared and the
checkpoint still pushed. -/
def makeMove (s : Session) (col : Int) (player : Nat) : Session :=
  if s.isAnimating then s
  else
    let s1 : Session := { s with
      isAnimating := true,
      undoStack := ⟨cloneBoard s.board, s.currentPlayer, s.moveHistory.length⟩ :: s.undoStack }
    let res := dropDisc s1.board col player
    if res.success then
      let s2 : Session := { s1 with board := res.board }
      let moveObj : MoveRec :=
        ⟨s2.moveHistory.length + 1, player, col, res.row, cloneBoard s2.board⟩
      let s3 : Session := { s2 with moveHistory := s2.moveHistory ++ [moveObj] }
      let wc := checkWin s3.board res.row col player
      if wc.win then handleGameOver s3
      else if isBoardFull s3.board then handleGameOver s3
      else { s3 with
        currentPlayer := if s3.currentPlayer = 1 then 2 else 1,
        isAnimating := false }
    else { s1 with isAnimating := false }

/-- handleColumnClick from app.js: ignores the click while the game is
inactive or animating, during the AI turn in AI mode, or when the column
is full; otherwise submits the move for the current player. -/
def handleColumnClick (s : Session) (col : Int) : Session :=
  if !s.isGameActive || s.isAnimating then s
  else if s.gameMode = "ai" ∧ s.currentPlayer = 2 then s
  else if isColumnFull s.board col then s
  else makeMove s col s.currentPlayer

/-- handleUndo from app.js: with an active, non-animating game and a
non-empty undo stack, pops the top checkpoint, restores the board and
player, and truncates the move log to the checkpoint length. -/
def handleUndo (s : Session) : Session :=
  if !s.isGameActive || s.isAnimating || s.undoStack.length = 0 then s
  else
    match s.undoStack with
    | [] => s
    | last :: rest =>
      { s with
        board := last.board,
        currentPlayer := last.player,
        moveHistory := s.moveHistory.take last.moveHistoryLength,
        undoStack := rest }

/-- No-floating-token invariant: within any column, every cell below an
occupied cell is occupied too. -/
def NoFloating (b : Board) : Prop :=
  ∀ (c : Fin 7) (r r2 : Fin 6), r ≤ r2 → b r c ≠ 0 → b r2 c ≠ 0

/-- Boards reachable from createBoard by sequences of successful drops of
the two real sides. -/
inductive Reachable : Board → Prop
  | init : Reachable createBoard
  | step (b : Board) (col : Int) (p : Nat) (hp : p = 1 ∨ p = 2)
      (hb : Reachable b) (hs : (dropDisc b col p).success = true) :
      Reachable ((dropDisc b col p).board)

/-- Board refuting C3 as stated for arbitrary boards: a floating token at
row 4 of column 0, everything else empty. -/
def floatBoard : Board := fun r c => if r.val = 4 ∧ c.val = 0 then 1 else 0

/-- Board of end-to-end scenario 1: Red plays columns 0, 1, 2 from the
empty board, Yellow answering in column 6 after each Red move. -/
def scenarioBoard : Board :=
  (dropDisc (dropDisc (dropDisc (dropDisc (dropDisc (dropDisc createBoard
    0 1).board 6 2).board 1 1).board 6 2).board 2 1).board 6 2).board

/-- Exchanges the two sides in a cell value, leaving 0 and any other
value unchanged. -/
def swapCell (v : Nat) : Nat := if v = 1 then 2 else if v = 2 then 1 else v

/-- Board with every Red cell turned Yellow and vice versa. -/
def swapBoard (b : Board) : Board := fun r c => swapCell (b r c)

/-- The side opposite to a side, as computed throughout the source. -/
def oppSide (s : Nat) : Nat := if s = 1 then 2 else 1

/-- The side would win immediately by playing column c: the simulated
drop on a clone succeeds and checkWin reports a win at the landing cell,
exactly the test of the loops in getMediumMove. -/
def winsAfter (b : Board) (c : Int) (who : Nat) : Prop :=
  (dropDisc (cloneBoard b) c who).success = true ∧
  (checkWin (dropDisc (cloneBoard b) c who).board
    (dropDisc (cloneBoard b) c who).row c who).win = true

instance (b : Board) (c : Int) (who : Nat) : Decidable (winsAfter b c who) := by
  unfold winsAfter
  infer_instance

/-- Board for the C5 witness: Yellow owns the bottom of columns 0, 1, 2
and can win immediately at column 3. -/
def mediumBoard : Board := fun r c => if r.val = 5 ∧ c.val ≤ 2 then 2 else 0

/-- The board contains a four-in-a-row anchored at a cell owned by the
given side (the existence form behind the win scans). -/
def hasWinFor (b : Board) (who : Nat) : Prop :=
  ∃ rc : Fin 6 × Fin 7, b rc.1 rc.2 = who ∧
    (checkWin b (rc.1.val : Int) (rc.2.val : Int) who).win = true

instance (b : Board) (who : Nat) : Decidable (hasWinFor b who) := by
  unfold hasWinFor
  infer_instance

/-- Full board with no four-in-a-row for either side (a drawn position). -/
def drawBoard : Board := fun r c =>
  (([[1, 2, 1, 2, 1, 2, 1],
     [1, 2, 1, 2, 1, 2, 1],
     [2, 1, 2, 1, 2, 1, 2],
     [2, 1, 2, 1, 2, 1, 2],
     [1, 2, 1, 2, 1, 2, 1],
     [1, 2, 1, 2, 1, 2, 1]] : List (List Nat)).getD r.val []).getD c.val 0

/-- Board whose column 0 is full (alternating sides, so no one has won). -/
def fullColBoard : Board := fun r c =>
  if c.val = 0 then (if r.val % 2 = 0 then 1 else 2) else 0

/-- An active, quiescent session sitting on fullColBoard with empty move
log and empty undo stack. -/
def fullColSession : Session :=
  { board := fullColBoard, currentPlayer := 1, gameMode := "human",
    isGameActive := true, isAnimating := false, moveHistory := [], undoStack := [] }

/-!
Helper lemmas about the board primitives.
-/

theorem getCellI_fin (b : Board) (r : Fin 6) (c : Fin 7) :
    getCellI b (r.val : Int) (c.val : Int) = some (b r c) := by
  have hr : (0 : Int) ≤ (r.val : Int) ∧ (r.val : Int) < 6 := by
    constructor <;> [positivity; exact_mod_cast r.isLt]
  have hc : (0 : Int) ≤ (c.val : Int) ∧ (c.val : Int) < 7 := by
    constructor <;> [positivity; exact_mod_cast c.isLt]
  simp only [getCellI, dif_pos hr, dif_pos hc]
  congr 1

theorem scanRow_eq_none (b : Board) (c : Fin 7) (n : Nat) :
    scanRow b c n = none ↔ ∀ r : Fin 6, r.val < n → b r c ≠ 0 := by
  induction n with
  | zero => simp [scanRow]
  | succ m ih =>
    simp only [scanRow]
    by_cases h : m < 6
    · rw [dif_pos h]
      by_cases hz : b ⟨m, h⟩ c = 0
      · simp only [if_pos hz]
        constructor
        · intro habs; cases habs
        · intro hall; exact absurd hz (hall ⟨m, h⟩ (by simp only [Fin.val_mk]; omega))
      · rw [if_neg hz, ih]
        constructor
        · intro hall r hr
          by_cases hrm : r.val = m
          · have : r = ⟨m, h⟩ := by exact Fin.ext hrm
            rw [this]; exact hz
          · exact hall r (by omega)
        · intro hall r hr; exact hall r (by omega)
    · rw [dif_neg h, ih]
      constructor
      · intro hall r hr; exact hall r (by omega)
      · intro hall r hr; exact hall r (by omega)

theorem scanRow_eq_some (b : Board) (c : Fin 7) (n : Nat) (r : Fin 6)
    (h : scanRow b c n = some r) :
    r.val < n ∧ b r c = 0 ∧
      ∀ r2 : Fin 6, r.val < r2.val → r2.val < n → b r2 c ≠ 0 := by
  induction n with
  | zero => cases h
  | succ m ih =>
    simp only [scanRow] at h
    by_cases hm : m < 6
    · rw [dif_pos hm] at h
      by_cases hz : b ⟨m, hm⟩ c = 0
      · rw [if_pos hz] at h
        cases h
        refine ⟨by simp only [Fin.val_mk]; omega, hz, ?_⟩
        intro r2 h1 h2
        simp only [Fin.val_mk] at h1
        omega
      · rw [if_neg hz] at h
        obtain ⟨h1, h2, h3⟩ := ih h
        refine ⟨by omega, h2, ?_⟩
        intro r2 hlt hub
        by_cases hr2 : r2.val = m
        · have : r2 = ⟨m, hm⟩ := Fin.ext hr2
          rw [this]; exact hz
        · exact h3 r2 hlt (by omega)
    · rw [dif_neg hm] at h
      obtain ⟨h1, h2, h3⟩ := ih h
      exact ⟨by omega, h2, fun r2 hlt hub => h3 r2 hlt (by omega)⟩

theorem scanRow_eq_some_of (b : Board) (c : Fin 7) (n : Nat) (r : Fin 6)
    (hn : n ≤ 6) (hr : r.val < n) (hz : b r c = 0)
    (habove : ∀ r2 : Fin 6, r.val < r2.val → r2.val < n → b r2 c ≠ 0) :
    scanRow b c n = some r := by
  induction n with
  | zero => omega
  | succ m ih =>
    have hm : m < 6 := by omega
    simp only [scanRow, dif_pos hm]
    by_cases hz2 : b ⟨m, hm⟩ c = 0
    · rw [if_pos hz2]
      have : r.val = m := by
        by_contra hne
        exact habove ⟨m, hm⟩ (by simp only [Fin.val_mk]; omega)
          (by simp only [Fin.val_mk]; omega) hz2
      congr 1
      exact Fin.ext this.symm
    · rw [if_neg hz2]
      have hrm : r.val ≠ m := by
        intro habs
        exact hz2 (by rw [show (⟨m, hm⟩ : Fin 6) = r from Fin.ext habs.symm]; exact hz)
      exact ih (by omega) (by omega) (fun r2 h1 h2 => habove r2 h1 (by omega))

theorem getLowestEmptyRow_cases (b : Board) (col : Int) :
    (getLowestEmptyRow b col = -1 ∧
      (col < 0 ∨ 7 ≤ col ∨ ∀ r : Fin 6, getCellI b (r.val : Int) col ≠ some 0)) ∨
    (∃ (cf : Fin 7) (rf : Fin 6), (cf.val : Int) = col ∧
      getLowestEmptyRow b col = (rf.val : Int) ∧ scanRow b cf 6 = some rf) := by
  unfold getLowestEmptyRow
  by_cases h : col < 0 ∨ 7 ≤ col
  · rw [dif_pos h]
    left
    exact ⟨rfl, by tauto⟩
  · rw [dif_neg h]
    have hc7 : col.toNat < 7 := by omega
    cases hscan : scanRow b ⟨col.toNat, hc7⟩ 6 with
    | none =>
      simp only [hscan]
      left
      refine ⟨trivial, Or.inr (Or.inr ?_)⟩
      intro r
      have hcv : ((⟨col.toNat, hc7⟩ : Fin 7).val : Int) = col := by
        simp only [Fin.val_mk]; omega
      rw [← hcv, getCellI_fin]
      have hne := (scanRow_eq_none b ⟨col.toNat, hc7⟩ 6).mp hscan r r.isLt
      simp [hne]
    | some rf =>
      simp only [hscan]
      right
      refine ⟨⟨col.toNat, hc7⟩, rf, ?_, rfl, hscan⟩
      simp only [Fin.val_mk]; omega

/-- C1: dropDisc reports failure and leaves every cell unchanged exactly
when the column is out of range or has no empty cell; otherwise it reports
success with the landing row resolved by getLowestEmptyRow, and the only
cell it changes is the landing cell, which it sets to the given side. -/
theorem dropDisc_spec (b : Board) (col : Int) (p : Nat) :
    ((dropDisc b col p).success = false ↔
      col < 0 ∨ 7 ≤ col ∨ ∀ r : Fin 6, getCellI b (r.val : Int) col ≠ some 0) ∧
    ((dropDisc b col p).success = false → (dropDisc b col p).board = b) ∧
    ((dropDisc b col p).success = true →
      (dropDisc b col p).row = getLowestEmptyRow b col ∧
      getCellI (dropDisc b col p).board (dropDisc b col p).row col = some p ∧
      ∀ (r : Fin 6) (c : Fin 7),
        ¬((r.val : Int) = (dropDisc b col p).row ∧ (c.val : Int) = col) →
        (dropDisc b col p).board r c = b r c) := by
  rcases getLowestEmptyRow_cases b col with ⟨hm1, hcond⟩ | ⟨cf, rf, hcv, hrow, hscan⟩
  · simp only [dropDisc, hm1, if_pos rfl]
    refine ⟨by simpa using hcond, fun _ => rfl, fun habs => by cases habs⟩
  · have hne : ((rf.val : Nat) : Int) ≠ -1 := by omega
    simp only [dropDisc, hrow, if_neg hne]
    obtain ⟨_, hz, _⟩ := scanRow_eq_some b cf 6 rf hscan
    constructor
    · simp only [Bool.true_eq_false, false_iff]
      push_neg
      refine ⟨by omega, by omega, rf, ?_⟩
      rw [← hcv, getCellI_fin, hz]
    constructor
    · intro habs; cases habs
    · intro _
      refine ⟨trivial, ?_, ?_⟩
      · rw [← hcv, getCellI_fin]
        simp [setCellI]
      · intro r c hcond2
        simp only [setCellI, if_neg hcond2]

/-- Witness for C1 at concrete inputs: the out-of-range drop fails and
leaves the board unchanged, and the successful drop into column 3 of the
empty board reports the row resolved by getLowestEmptyRow. -/
theorem dropDisc_spec_witness :
    (dropDisc createBoard 9 1).board = createBoard ∧
    (dropDisc createBoard 3 1).row = getLowestEmptyRow createBoard 3 :=
  ⟨(dropDisc_spec createBoard 9 1).2.1 (by decide),
   ((dropDisc_spec createBoard 3 1).2.2 (by decide)).1⟩

theorem dropDisc_success_char (b : Board) (col : Int) (p : Nat)
    (h : (dropDisc b col p).success = true) :
    ∃ (cf : Fin 7) (rf : Fin 6), (cf.val : Int) = col ∧
      scanRow b cf 6 = some rf ∧
      getLowestEmptyRow b col = (rf.val : Int) ∧
      (dropDisc b col p).row = (rf.val : Int) ∧
      (dropDisc b col p).board = setCellI b (rf.val : Int) col p := by
  rcases getLowestEmptyRow_cases b col with ⟨hm1, _⟩ | ⟨cf, rf, hcv, hrow, hscan⟩
  · exfalso
    simp only [dropDisc, hm1, if_pos rfl] at h
    cases h
  · have hne : ((rf.val : Nat) : Int) ≠ -1 := by omega
    refine ⟨cf, rf, hcv, hscan, hrow, ?_, ?_⟩ <;>
      simp only [dropDisc, hrow, if_neg hne]

theorem setCellI_fin_eq (b : Board) (rf : Fin 6) (cf : Fin 7) (v : Nat) :
    setCellI b (rf.val : Int) (cf.val : Int) v rf cf = v := by
  simp [setCellI]

theorem setCellI_fin_ne (b : Board) (rf : Fin 6) (cf : Fin 7) (v : Nat)
    (r : Fin 6) (c : Fin 7) (h : ¬(r = rf ∧ c = cf)) :
    setCellI b (rf.val : Int) (cf.val : Int) v r c = b r c := by
  rw [setCellI, if_neg]
  intro hh
  obtain ⟨h1, h2⟩ := hh
  exact h ⟨Fin.ext (by omega), Fin.ext (by omega)⟩

theorem dropDisc_preserves_noFloating (b : Board) (col : Int) (p : Nat)
    (hp : p = 1 ∨ p = 2) (hnf : NoFloating b)
    (hs : (dropDisc b col p).success = true) :
    NoFloating ((dropDisc b col p).board) := by
  obtain ⟨cf, rf, hcv, hscan, hold, hrow, hboard⟩ := dropDisc_success_char b col p hs
  obtain ⟨_, hz, habove⟩ := scanRow_eq_some b cf 6 rf hscan
  rw [hboard, ← hcv]
  intro c r r2 hle hocc
  by_cases hc : c = cf
  · subst hc
    by_cases hr2 : r2 = rf
    · subst hr2
      rw [setCellI_fin_eq]
      rcases hp with hp | hp <;> simp [hp]
    · rw [setCellI_fin_ne b rf c p r2 c (fun hh => hr2 hh.1)]
      by_cases hr : r = rf
      · subst hr
        refine habove r2 ?_ r2.isLt
        rw [Fin.le_def] at hle
        have h2 : r2.val ≠ r.val := fun hh => hr2 (Fin.ext hh)
        omega
      · rw [setCellI_fin_ne b rf c p r c (fun hh => hr hh.1)] at hocc
        exact hnf c r r2 hle hocc
  · rw [setCellI_fin_ne b rf cf p r2 c (fun hh => hc hh.2)]
    rw [setCellI_fin_ne b rf cf p r c (fun hh => hc hh.2)] at hocc
    exact hnf c r r2 hle hocc

/-- C2: every board reachable from createBoard by successful drops
satisfies the no-floating-token invariant. -/
theorem reachable_noFloating (b : Board) (hb : Reachable b) : NoFloating b := by
  induction hb with
  | init =>
    intro c r r2 _ hocc
    exact absurd rfl hocc
  | step b col p hp hb hs ih =>
    exact dropDisc_preserves_noFloating b col p hp ih hs

/-- Witness for C2 at a concrete reachable board. -/
theorem reachable_noFloating_witness :
    NoFloating ((dropDisc createBoard 3 1).board) :=
  reachable_noFloating _
    (Reachable.step createBoard 3 1 (Or.inl rfl) Reachable.init (by decide))

theorem getLowestEmptyRow_eq_scan (b : Board) (col : Int) (cf : Fin 7)
    (hcv : (cf.val : Int) = col) :
    getLowestEmptyRow b col =
      (match scanRow b cf 6 with
       | some r => ((r.val : Nat) : Int)
       | none => -1) := by
  unfold getLowestEmptyRow
  have h : ¬(col < 0 ∨ 7 ≤ col) := by omega
  rw [dif_neg h]
  have hc7 : col.toNat < 7 := by omega
  have heq : (⟨col.toNat, by omega⟩ : Fin 7) = cf := Fin.ext (by simp only [Fin.val_mk]; omega)
  rw [heq]

theorem getLowestEmptyRow_of_scan_none (b : Board) (col : Int) (cf : Fin 7)
    (hcv : (cf.val : Int) = col) (h : scanRow b cf 6 = none) :
    getLowestEmptyRow b col = -1 := by
  rw [getLowestEmptyRow_eq_scan b col cf hcv, h]

theorem getLowestEmptyRow_of_scan_some (b : Board) (col : Int) (cf : Fin 7) (rf : Fin 6)
    (hcv : (cf.val : Int) = col) (h : scanRow b cf 6 = some rf) :
    getLowestEmptyRow b col = ((rf.val : Nat) : Int) := by
  rw [getLowestEmptyRow_eq_scan b col cf hcv, h]

/-- C3 (amended): on a board satisfying the no-floating invariant, a
successful drop makes getLowestEmptyRow of that column decrease by
exactly one (with -1 as the value after filling the column). -/
theorem getLowestEmptyRow_after_drop (b : Board) (col : Int) (p : Nat)
    (hnf : NoFloating b) (hp : p = 1 ∨ p = 2)
    (hs : (dropDisc b col p).success = true) :
    getLowestEmptyRow (dropDisc b col p).board col = getLowestEmptyRow b col - 1 ∨
    getLowestEmptyRow (dropDisc b col p).board col = -1 := by
  left
  obtain ⟨cf, rf, hcv, hscan, hold, hrow, hboard⟩ := dropDisc_success_char b col p hs
  obtain ⟨_, hz, habove⟩ := scanRow_eq_some b cf 6 rf hscan
  have hpnz : p ≠ 0 := by rcases hp with hp | hp <;> simp [hp]
  have hbcol : setCellI b ((rf.val : Nat) : Int) col p =
      setCellI b ((rf.val : Nat) : Int) ((cf.val : Nat) : Int) p := by rw [hcv]
  rw [hboard, hold, hbcol]
  by_cases h0 : rf.val = 0
  · have hnone : scanRow (setCellI b ((rf.val : Nat) : Int) ((cf.val : Nat) : Int) p) cf 6 =
        none := by
      rw [scanRow_eq_none]
      intro r _
      by_cases hr : r = rf
      · subst hr
        rw [setCellI_fin_eq]
        exact hpnz
      · rw [setCellI_fin_ne b rf cf p r cf (fun hh => hr hh.1)]
        refine habove r ?_ r.isLt
        have : r.val ≠ rf.val := fun hh => hr (Fin.ext hh)
        omega
    rw [getLowestEmptyRow_of_scan_none _ col cf hcv hnone]
    omega
  · have hprev : b ⟨rf.val - 1, by omega⟩ cf = 0 := by
      by_contra hocc
      exact absurd hz (hnf cf ⟨rf.val - 1, by omega⟩ rf
        (by rw [Fin.le_def]; simp only [Fin.val_mk]; omega) hocc)
    have hsome : scanRow (setCellI b ((rf.val : Nat) : Int) ((cf.val : Nat) : Int) p) cf 6 =
        some ⟨rf.val - 1, by omega⟩ := by
      refine scanRow_eq_some_of _ _ _ _ (by omega) (by simp only [Fin.val_mk]; omega) ?_ ?_
      · rw [setCellI_fin_ne b rf cf p ⟨rf.val - 1, by omega⟩ cf]
        · exact hprev
        · intro hh
          have := congrArg Fin.val hh.1
          simp only [Fin.val_mk] at this
          omega
      · intro r2 hgt _
        simp only [Fin.val_mk] at hgt
        by_cases hr2 : r2 = rf
        · subst hr2
          rw [setCellI_fin_eq]
          exact hpnz
        · rw [setCellI_fin_ne b rf cf p r2 cf (fun hh => hr2 hh.1)]
          refine habove r2 ?_ r2.isLt
          have : r2.val ≠ rf.val := fun hh => hr2 (Fin.ext hh)
          omega
    rw [getLowestEmptyRow_of_scan_some _ col cf ⟨rf.val - 1, by omega⟩ hcv hsome]
    simp only [Fin.val_mk]
    omega

/-- Witness for C3 at a concrete board. -/
theorem getLowestEmptyRow_after_drop_witness :
    getLowestEmptyRow (dropDisc createBoard 0 1).board 0 =
      getLowestEmptyRow createBoard 0 - 1 ∨
    getLowestEmptyRow (dropDisc createBoard 0 1).board 0 = -1 :=
  getLowestEmptyRow_after_drop createBoard 0 1
    (fun _ _ _ _ h => absurd rfl h) (Or.inl rfl) (by decide)

/-- Counterexample to C3 as stated: on floatBoard the drop into column 0
succeeds (landing at row 5), yet afterwards getLowestEmptyRow is 3, which
is neither one less than its previous value 5 nor the full sentinel -1. -/
theorem getLowestEmptyRow_after_drop_counterexample :
    (dropDisc floatBoard 0 2).success = true ∧
    getLowestEmptyRow floatBoard 0 = 5 ∧
    getLowestEmptyRow (dropDisc floatBoard 0 2).board 0 ≠
      getLowestEmptyRow floatBoard 0 - 1 ∧
    getLowestEmptyRow (dropDisc floatBoard 0 2).board 0 ≠ -1 := by
  decide

/-- C8: the fourth Red drop, in column 3, lands at row 5 and checkWin at
(5, 3) for Red reports the win with line (5,0),(5,1),(5,2),(5,3). -/
theorem scenario1_win :
    (dropDisc scenarioBoard 3 1).success = true ∧
    (dropDisc scenarioBoard 3 1).row = 5 ∧
    (checkWin (dropDisc scenarioBoard 3 1).board 5 3 1).win = true ∧
    (checkWin (dropDisc scenarioBoard 3 1).board 5 3 1).line =
      [(5, 0), (5, 1), (5, 2), (5, 3)] := by
  decide

theorem swapCell_inj (v p : Nat) : swapCell v = swapCell p ↔ v = p := by
  unfold swapCell
  split_ifs <;> omega

theorem getCellI_swap (b : Board) (r c : Int) :
    getCellI (swapBoard b) r c = Option.map swapCell (getCellI b r c) := by
  unfold getCellI
  split_ifs <;> rfl

theorem scanDir_swap (b : Board) (p : Nat) (sr sc dr dc : Int) (i fuel : Nat) :
    scanDir (swapBoard b) (swapCell p) sr sc dr dc i fuel =
      scanDir b p sr sc dr dc i fuel := by
  induction fuel generalizing i with
  | zero => rfl
  | succ f ih =>
    simp only [scanDir, getCellI_swap]
    cases hcell : getCellI b (sr + dr * (i : Int)) (sc + dc * (i : Int)) with
    | none => rfl
    | some v =>
      simp only [Option.map]
      by_cases hv : v = p
      · rw [if_pos (by rw [swapCell_inj]; exact hv), if_pos hv, ih]
      · rw [if_neg (fun hh => hv ((swapCell_inj v p).mp hh)), if_neg hv]

theorem checkDir_swap (b : Board) (p : Nat) (sr sc dr dc : Int) :
    checkDir (swapBoard b) (swapCell p) sr sc dr dc = checkDir b p sr sc dr dc := by
  simp only [checkDir, scanDir_swap]

theorem checkWinDirs_swap (b : Board) (p : Nat) (sr sc : Int) (l : List (Int × Int)) :
    checkWinDirs (swapBoard b) (swapCell p) sr sc l = checkWinDirs b p sr sc l := by
  induction l with
  | nil => rfl
  | cons d rest ih => simp only [checkWinDirs, checkDir_swap, ih]

theorem checkWin_swap (b : Board) (sr sc : Int) (p : Nat) :
    checkWin (swapBoard b) sr sc (swapCell p) = checkWin b sr sc p :=
  checkWinDirs_swap b p sr sc directions

/-- C9: checkWin is symmetric under relabeling: swapping all Red and
Yellow cells and querying the opposite side yields the identical result,
winning line included. -/
theorem checkWin_relabel (b : Board) (r c : Int) (s : Nat) (hs : s = 1 ∨ s = 2) :
    checkWin (swapBoard b) r c (oppSide s) = checkWin b r c s := by
  have hswap : oppSide s = swapCell s := by
    rcases hs with h | h <;> simp [h, oppSide, swapCell]
  rw [hswap, checkWin_swap]

/-- Witness for C9 at a concrete board and cell. -/
theorem checkWin_relabel_witness :
    checkWin (swapBoard scenarioBoard) 5 2 (oppSide 1) = checkWin scenarioBoard 5 2 1 :=
  checkWin_relabel scenarioBoard 5 2 1 (Or.inl rfl)

theorem mem_getAvailableMoves_bounds (b : Board) (c : Int)
    (h : c ∈ getAvailableMoves b) : 0 ≤ c ∧ c < 7 := by
  unfold getAvailableMoves at h
  have hsub := List.mem_of_mem_filter h
  rw [show ((List.range 7).map (fun n => (n : Int))) = [0, 1, 2, 3, 4, 5, 6] from rfl] at hsub
  simp only [List.mem_cons, List.not_mem_nil, or_false] at hsub
  rcases hsub with h | h | h | h | h | h | h <;> omega

theorem getD_mem (l : List Int) (n : Nat) (d : Int) (h : n < l.length) :
    l.getD n d ∈ l := by
  induction l generalizing n with
  | nil => simp at h
  | cons a t ih =>
    cases n with
    | zero => simp [List.getD]
    | succ m =>
      simp only [List.getD_cons_succ]
      exact List.mem_cons_of_mem a (ih m (by simpa using h))

theorem getEasyMove_mem (l : List Int) (rnd : Nat) (h : l ≠ []) :
    getEasyMove l rnd ∈ l :=
  getD_mem l _ 0 (Nat.mod_lt rnd (List.length_pos.mpr h))

theorem findWinningCol_mem (b : Board) (who : Nat) (l : List Int) (c : Int)
    (h : findWinningCol b who l = some c) : c ∈ l := by
  induction l with
  | nil => cases h
  | cons a t ih =>
    simp only [findWinningCol] at h
    split at h
    · rw [Option.some_inj] at h
      rw [← h]
      exact List.mem_cons_self a t
    · exact List.mem_cons_of_mem a (ih h)

theorem firstCenterCol_mem (moves : List Int) (l : List Int) (c : Int)
    (h : firstCenterCol moves l = some c) : c ∈ moves := by
  induction l with
  | nil => cases h
  | cons a t ih =>
    simp only [firstCenterCol] at h
    split at h
    · rw [Option.some_inj] at h
      rw [← h]
      assumption
    · exact ih h

theorem getMediumMove_mem (b : Board) (moves : List Int) (p : Nat) (rnd : Nat)
    (h : moves ≠ []) : getMediumMove b moves p rnd ∈ moves := by
  unfold getMediumMove
  cases h1 : findWinningCol b p moves with
  | some c => exact findWinningCol_mem b p moves c h1
  | none =>
    cases h2 : findWinningCol b (if p = 1 then 2 else 1) moves with
    | some c => exact findWinningCol_mem b _ moves c h2
    | none =>
      cases h3 : firstCenterCol moves centerOrder with
      | some c => exact firstCenterCol_mem moves centerOrder c h3
      | none => exact getEasyMove_mem moves rnd h

theorem hardLoop_mem (b : Board) (p q : Nat) (d : Nat) (l : List Int)
    (best : EInt) (bm : Int) :
    hardLoop b p q d l best bm = bm ∨ hardLoop b p q d l best bm ∈ l := by
  induction l generalizing best bm with
  | nil => left; rfl
  | cons a t ih =>
    simp only [hardLoop]
    split
    · split
      · rcases ih _ a with h | h
        · right; rw [h]; exact List.mem_cons_self a t
        · right; exact List.mem_cons_of_mem a h
      · rcases ih best bm with h | h
        · left; exact h
        · right; exact List.mem_cons_of_mem a h
    · rcases ih best bm with h | h
      · left; exact h
      · right; exact List.mem_cons_of_mem a h

theorem getHardMove_mem (b : Board) (moves : List Int) (p : Nat)
    (h : moves ≠ []) : getHardMove b moves p ∈ moves := by
  unfold getHardMove
  rcases hardLoop_mem b p (if p = 1 then 2 else 1) 5 moves ⊥ (moves.headD 0) with hh | hh
  · rw [hh]
    cases moves with
    | nil => exact absurd rfl h
    | cons a t => exact List.mem_cons_self a t
  · exact hh

/-- C4: for every board, difficulty string and side, getAIMove returns a
member of getAvailableMoves whenever some column is not full, and returns
the sentinel -1 exactly when no legal column exists. -/
theorem getAIMove_legal (b : Board) (difficulty : String) (p : Nat) (rnd : Nat) :
    (getAvailableMoves b ≠ [] → getAIMove b difficulty p rnd ∈ getAvailableMoves b) ∧
    (getAIMove b difficulty p rnd = -1 ↔ getAvailableMoves b = []) := by
  by_cases hemp : getAvailableMoves b = []
  · refine ⟨fun h => absurd hemp h, ?_⟩
    have : getAIMove b difficulty p rnd = -1 := by
      unfold getAIMove
      rw [if_pos (by simp [hemp])]
    simp [this, hemp]
  · have hlen : ¬(getAvailableMoves b).length = 0 := by
      simpa [List.length_eq_zero] using hemp
    have hmem : getAIMove b difficulty p rnd ∈ getAvailableMoves b := by
      unfold getAIMove
      rw [if_neg hlen]
      by_cases h1 : difficulty = "easy"
      · rw [if_pos h1]; exact getEasyMove_mem _ _ hemp
      · rw [if_neg h1]
        by_cases h2 : difficulty = "medium"
        · rw [if_pos h2]; exact getMediumMove_mem b _ p rnd hemp
        · rw [if_neg h2]
          by_cases h3 : difficulty = "hard"
          · rw [if_pos h3]; exact getHardMove_mem b _ p hemp
          · rw [if_neg h3]; exact getEasyMove_mem _ _ hemp
    refine ⟨fun _ => hmem, ?_⟩
    constructor
    · intro h
      have := (mem_getAvailableMoves_bounds b _ hmem).1
      rw [h] at this
      omega
    · intro h; exact absurd h hemp

/-- Witness for C4 at the empty board with the medium tier. -/
theorem getAIMove_legal_witness :
    getAvailableMoves createBoard ≠ [] ∧
    getAIMove createBoard "medium" 2 0 ∈ getAvailableMoves createBoard :=
  ⟨by decide, (getAIMove_legal createBoard "medium" 2 0).1 (by decide)⟩

theorem findWinningCol_some (b : Board) (who : Nat) (l : List Int) (c : Int)
    (h : findWinningCol b who l = some c) : c ∈ l ∧ winsAfter b c who := by
  induction l with
  | nil => cases h
  | cons a t ih =>
    simp only [findWinningCol] at h
    split at h
    · rw [Option.some_inj] at h
      subst h
      exact ⟨List.mem_cons_self a t, by assumption⟩
    · obtain ⟨h1, h2⟩ := ih h
      exact ⟨List.mem_cons_of_mem a h1, h2⟩

theorem findWinningCol_none (b : Board) (who : Nat) (l : List Int) :
    findWinningCol b who l = none ↔ ∀ c ∈ l, ¬ winsAfter b c who := by
  induction l with
  | nil => simp [findWinningCol]
  | cons a t ih =>
    simp only [findWinningCol]
    split
    · constructor
      · intro habs; cases habs
      · intro hall
        exact absurd (by assumption) (hall a (List.mem_cons_self a t))
    · rw [ih]
      constructor
      · intro hall c hc
        rcases List.mem_cons.mp hc with rfl | hc2
        · assumption
        · exact hall c hc2
      · intro hall c hc
        exact hall c (List.mem_cons_of_mem a hc)

/-- C5: the medium tier takes an immediate win when one exists among the
legal columns; failing that, it blocks an immediate opponent win when one
exists; and only when neither exists does it consult the center-out
preference order (falling back to the random pick when even that fails). -/
theorem getMediumMove_priority (b : Board) (p : Nat) (rnd : Nat) :
    ((∃ c ∈ getAvailableMoves b, winsAfter b c p) →
      winsAfter b (getMediumMove b (getAvailableMoves b) p rnd) p) ∧
    ((¬ ∃ c ∈ getAvailableMoves b, winsAfter b c p) →
      (∃ c ∈ getAvailableMoves b, winsAfter b c (if p = 1 then 2 else 1)) →
      winsAfter b (getMediumMove b (getAvailableMoves b) p rnd)
        (if p = 1 then 2 else 1)) ∧
    ((¬ ∃ c ∈ getAvailableMoves b, winsAfter b c p) →
      (¬ ∃ c ∈ getAvailableMoves b, winsAfter b c (if p = 1 then 2 else 1)) →
      firstCenterCol (getAvailableMoves b) centerOrder =
        some (getMediumMove b (getAvailableMoves b) p rnd) ∨
      (firstCenterCol (getAvailableMoves b) centerOrder = none ∧
        getMediumMove b (getAvailableMoves b) p rnd =
          getEasyMove (getAvailableMoves b) rnd)) := by
  refine ⟨?_, ?_, ?_⟩
  · rintro ⟨c, hc, hw⟩
    cases hfw : findWinningCol b p (getAvailableMoves b) with
    | none => exact absurd hw ((findWinningCol_none b p _).mp hfw c hc)
    | some c2 =>
      have h2 := (findWinningCol_some b p _ c2 hfw).2
      unfold getMediumMove
      rw [hfw]
      exact h2
  · intro hnone hex
    obtain ⟨c, hc, hw⟩ := hex
    have hfw1 : findWinningCol b p (getAvailableMoves b) = none := by
      rw [findWinningCol_none]
      intro c2 hc2 hw2
      exact hnone ⟨c2, hc2, hw2⟩
    cases hfw2 : findWinningCol b (if p = 1 then 2 else 1) (getAvailableMoves b) with
    | none => exact absurd hw ((findWinningCol_none b _ _).mp hfw2 c hc)
    | some c2 =>
      have h2 := (findWinningCol_some b _ _ c2 hfw2).2
      unfold getMediumMove
      rw [hfw1, hfw2]
      exact h2
  · intro hnone1 hnone2
    have hfw1 : findWinningCol b p (getAvailableMoves b) = none := by
      rw [findWinningCol_none]
      intro c2 hc2 hw2
      exact hnone1 ⟨c2, hc2, hw2⟩
    have hfw2 : findWinningCol b (if p = 1 then 2 else 1) (getAvailableMoves b) = none := by
      rw [findWinningCol_none]
      intro c2 hc2 hw2
      exact hnone2 ⟨c2, hc2, hw2⟩
    unfold getMediumMove
    rw [hfw1, hfw2]
    cases hfc : firstCenterCol (getAvailableMoves b) centerOrder with
    | none =>
      right
      exact ⟨rfl, rfl⟩
    | some c =>
      left
      rfl

/-- Witness for C5: on mediumBoard the medium tier playing Yellow takes
the immediate win. -/
theorem getMediumMove_priority_witness :
    (∃ c ∈ getAvailableMoves mediumBoard, winsAfter mediumBoard c 2) ∧
    winsAfter mediumBoard
      (getMediumMove mediumBoard (getAvailableMoves mediumBoard) 2 0) 2 :=
  ⟨by decide, (getMediumMove_priority mediumBoard 2 0).1 (by decide)⟩

theorem mem_allCells : ∀ rc : Fin 6 × Fin 7, rc ∈ allCells := by decide

theorem findSome?_eq_some_true (l : List (Fin 6 × Fin 7))
    (f : Fin 6 × Fin 7 → Option Bool)
    (hex : ∃ x ∈ l, f x = some true) (hnf : ∀ x ∈ l, f x ≠ some false) :
    l.findSome? f = some true := by
  induction l with
  | nil =>
    obtain ⟨x, hx, _⟩ := hex
    cases hx
  | cons a t ih =>
    rw [List.findSome?_cons]
    cases hfa : f a with
    | some v =>
      cases v
      · exact absurd hfa (hnf a (List.mem_cons_self a t))
      · rfl
    | none =>
      obtain ⟨x, hx, hfx⟩ := hex
      rcases List.mem_cons.mp hx with rfl | hx2
      · rw [hfa] at hfx; cases hfx
      · exact ih ⟨x, hx2, hfx⟩ (fun y hy => hnf y (List.mem_cons_of_mem a hy))

theorem firstWinScan_pos (b : Board) (p q : Nat)
    (hp : hasWinFor b p) (hq : ¬ hasWinFor b q) :
    firstWinScan b p q = some true := by
  apply findSome?_eq_some_true
  · obtain ⟨rc, h1, h2⟩ := hp
    refine ⟨rc, mem_allCells rc, ?_⟩
    simp [cellWinFlag, h1, h2]
  · intro rc _
    unfold cellWinFlag
    split_ifs with hA hB
    · simp
    · intro _
      exact hq ⟨rc, hB.1, hB.2⟩
    · simp

theorem findSome?_eq_some_false (l : List (Fin 6 × Fin 7))
    (f : Fin 6 × Fin 7 → Option Bool)
    (hex : ∃ x ∈ l, f x = some false) (hnf : ∀ x ∈ l, f x ≠ some true) :
    l.findSome? f = some false := by
  induction l with
  | nil =>
    obtain ⟨x, hx, _⟩ := hex
    cases hx
  | cons a t ih =>
    rw [List.findSome?_cons]
    cases hfa : f a with
    | some v =>
      cases v
      · rfl
      · exact absurd hfa (hnf a (List.mem_cons_self a t))
    | none =>
      obtain ⟨x, hx, hfx⟩ := hex
      rcases List.mem_cons.mp hx with rfl | hx2
      · rw [hfa] at hfx; cases hfx
      · exact ih ⟨x, hx2, hfx⟩ (fun y hy => hnf y (List.mem_cons_of_mem a hy))

theorem firstWinScan_neg (b : Board) (p q : Nat)
    (hp : ¬ hasWinFor b p) (hq : hasWinFor b q) :
    firstWinScan b p q = some false := by
  apply findSome?_eq_some_false
  · obtain ⟨rc, h1, h2⟩ := hq
    refine ⟨rc, mem_allCells rc, ?_⟩
    unfold cellWinFlag
    split_ifs with hA hB
    · exact absurd ⟨rc, hA.1, hA.2⟩ hp
    · rfl
    · exact absurd ⟨h1, h2⟩ hB
  · intro rc _
    unfold cellWinFlag
    split_ifs with hA hB
    · intro _
      exact hp ⟨rc, hA.1, hA.2⟩
    · simp
    · simp

theorem findSome?_eq_none_of (l : List (Fin 6 × Fin 7))
    (f : Fin 6 × Fin 7 → Option Bool) (hall : ∀ x ∈ l, f x = none) :
    l.findSome? f = none := by
  induction l with
  | nil => rfl
  | cons a t ih =>
    rw [List.findSome?_cons, hall a (List.mem_cons_self a t)]
    exact ih (fun y hy => hall y (List.mem_cons_of_mem a hy))

theorem firstWinScan_none (b : Board) (p q : Nat)
    (hp : ¬ hasWinFor b p) (hq : ¬ hasWinFor b q) :
    firstWinScan b p q = none := by
  apply findSome?_eq_none_of
  intro rc _
  unfold cellWinFlag
  split_ifs with hA hB
  · exact absurd ⟨rc, hA.1, hA.2⟩ hp
  · exact absurd ⟨rc, hB.1, hB.2⟩ hq
  · rfl

/-- C6 (amended): terminal handling inside the minimax recursion.  At
remaining depth 0 the evaluator score for the searching side is returned
in every case, even when no legal moves remain (the depth test precedes
the draw test).  At depth at least 1: a position containing a
four-in-a-row for the searching side only returns 10000 + depth, one for
the opponent only returns -10000 - depth, and a position with no win for
either side and no legal moves returns 0. -/
theorem minimax_terminal (b : Board) (d : Nat) (m : Bool) (p q : Nat)
    (alpha beta : EInt) :
    (d = 0 → minimax b d m p q alpha beta = toEInt (evaluateBoard b p)) ∧
    (1 ≤ d → hasWinFor b p → ¬ hasWinFor b q →
      minimax b d m p q alpha beta = toEInt (10000 + (d : Int))) ∧
    (1 ≤ d → hasWinFor b q → ¬ hasWinFor b p →
      minimax b d m p q alpha beta = toEInt (-10000 - (d : Int))) ∧
    (1 ≤ d → ¬ hasWinFor b p → ¬ hasWinFor b q → getAvailableMoves b = [] →
      minimax b d m p q alpha beta = toEInt 0) := by
  cases d with
  | zero =>
    exact ⟨fun _ => rfl, fun h => absurd h (by omega),
      fun h => absurd h (by omega), fun h => absurd h (by omega)⟩
  | succ dd =>
    refine ⟨?_, ?_, ?_, ?_⟩
    · intro h
      cases h
    · intro _ hp hq
      unfold minimax
      rw [firstWinScan_pos b p q hp hq]
      congr 1
    · intro _ hq hp
      unfold minimax
      rw [firstWinScan_neg b p q hp hq]
      congr 1
    · intro _ hp hq hmoves
      unfold minimax
      rw [firstWinScan_none b p q hp hq]
      simp [hmoves]

/-- Witness for C6: at depth 1 on the drawn full board, minimax returns
the draw value 0. -/
theorem minimax_terminal_witness :
    minimax drawBoard 1 true 1 2 ⊥ ⊤ = toEInt 0 :=
  (minimax_terminal drawBoard 1 true 1 2 ⊥ ⊤).2.2.2 (by omega)
    (by decide) (by decide) (by decide)

/-- Counterexample to C6 as stated: on the drawn full board at remaining
depth 0 no legal moves remain and neither side has a four-in-a-row, yet
minimax returns the evaluator score -4 rather than the draw value 0,
because the depth-0 test precedes the draw test. -/
theorem minimax_terminal_counterexample :
    getAvailableMoves drawBoard = [] ∧
    (¬ hasWinFor drawBoard 1) ∧ (¬ hasWinFor drawBoard 2) ∧
    minimax drawBoard 0 true 1 2 ⊥ ⊤ = toEInt (-4) ∧
    minimax drawBoard 0 true 1 2 ⊥ ⊤ ≠ toEInt 0 := by
  decide

/-- C7 (amended): a full-column submission through handleColumnClick
leaves the whole session unchanged; the inner makeMove, if invoked
directly on a column whose drop fails, leaves the board, the current
player and the move log unchanged but pushes an undo checkpoint that it
never pops. -/
theorem rejectedMove_state (s : Session) (col : Int) (p : Nat) :
    (isColumnFull s.board col = true → handleColumnClick s col = s) ∧
    (s.isAnimating = false → (dropDisc s.board col p).success = false →
      makeMove s col p =
        { s with undoStack :=
            ⟨s.board, s.currentPlayer, s.moveHistory.length⟩ :: s.undoStack }) := by
  constructor
  · intro hfull
    unfold handleColumnClick
    split_ifs with h1 h2 <;> rfl
  · intro hanim hfail
    obtain ⟨bd, cp, gm, ga, an, mh, us⟩ := s
    simp only at hanim hfail
    subst hanim
    unfold makeMove
    simp [cloneBoard, hfail]

/-- Witness for C7 at the concrete session. -/
theorem rejectedMove_state_witness :
    handleColumnClick fullColSession 0 = fullColSession ∧
    makeMove fullColSession 0 1 =
      { fullColSession with undoStack :=
          ⟨fullColSession.board, fullColSession.currentPlayer,
            fullColSession.moveHistory.length⟩ :: fullColSession.undoStack } :=
  ⟨(rejectedMove_state fullColSession 0 1).1 (by decide),
   (rejectedMove_state fullColSession 0 1).2 rfl (by decide)⟩

/-- Counterexample to C7 as stated: submitting a move into the full
column 0 of an active game via makeMove leaves board, player and move
log unchanged but the undo stack has afterwards one more entry than
before — a pushed but never popped checkpoint. -/
theorem rejectedMove_state_counterexample :
    fullColSession.isGameActive = true ∧
    fullColSession.isAnimating = false ∧
    isColumnFull fullColSession.board 0 = true ∧
    (makeMove fullColSession 0 1).board = fullColSession.board ∧
    (makeMove fullColSession 0 1).currentPlayer = fullColSession.currentPlayer ∧
    (makeMove fullColSession 0 1).moveHistory = fullColSession.moveHistory ∧
    (makeMove fullColSession 0 1).undoStack.length ≠ fullColSession.undoStack.length := by
  exact ⟨rfl, rfl, by decide, by decide, rfl, rfl, by decide⟩

theorem sum_map_neg {α : Type} (l : List α) (f g : α → Int)
    (h : ∀ x ∈ l, f x = - g x) : (l.map f).sum = - (l.map g).sum := by
  induction l with
  | nil => simp
  | cons a t ih =>
    simp only [List.map_cons, List.sum_cons, h a (List.mem_cons_self a t),
      ih (fun x hx => h x (List.mem_cons_of_mem a hx))]
    ring

theorem pairScore_swap (b : Board) (p q : Nat) (_hne : p ≠ q)
    (r1 c1 r2 c2 : Nat) :
    pairScore b p q r1 c1 r2 c2 = - pairScore b q p r1 c1 r2 c2 := by
  unfold pairScore
  split_ifs <;> omega

theorem centerScore_swap (b : Board) (p q : Nat) (hne : p ≠ q) :
    centerScore b p q = - centerScore b q p := by
  unfold centerScore
  apply sum_map_neg
  intro r _
  split_ifs <;> omega

theorem horizScore_swap (b : Board) (p q : Nat) (hne : p ≠ q) :
    horizScore b p q = - horizScore b q p := by
  unfold horizScore
  exact sum_map_neg _ _ _ (fun rc _ => pairScore_swap b p q hne rc.1 rc.2 rc.1 (rc.2 + 1))

theorem vertScore_swap (b : Board) (p q : Nat) (hne : p ≠ q) :
    vertScore b p q = - vertScore b q p := by
  unfold vertScore
  exact sum_map_neg _ _ _ (fun rc _ => pairScore_swap b p q hne rc.1 rc.2 (rc.1 + 1) rc.2)

theorem diagRScore_swap (b : Board) (p q : Nat) (hne : p ≠ q) :
    diagRScore b p q = - diagRScore b q p := by
  unfold diagRScore
  exact sum_map_neg _ _ _
    (fun rc _ => pairScore_swap b p q hne rc.1 rc.2 (rc.1 + 1) (rc.2 + 1))

theorem diagLScore_swap (b : Board) (p q : Nat) (hne : p ≠ q) :
    diagLScore b p q = - diagLScore b q p := by
  unfold diagLScore
  exact sum_map_neg _ _ _
    (fun rc _ => pairScore_swap b p q hne rc.1 (rc.2 + 1) (rc.1 + 1) rc.2)

theorem cellWinFlag_flip (b : Board) (p q : Nat) (hne : p ≠ q) (rc : Fin 6 × Fin 7) :
    cellWinFlag b p q rc = Option.map Bool.not (cellWinFlag b q p rc) := by
  unfold cellWinFlag
  split_ifs with h1 h2 <;>
    first
    | rfl
    | exact absurd (h1.1.symm.trans h2.1) hne

theorem findSome?_map_not (l : List (Fin 6 × Fin 7)) (f : Fin 6 × Fin 7 → Option Bool) :
    l.findSome? (fun x => Option.map Bool.not (f x)) =
      Option.map Bool.not (l.findSome? f) := by
  induction l with
  | nil => rfl
  | cons a t ih =>
    rw [List.findSome?_cons, List.findSome?_cons]
    cases f a with
    | none => exact ih
    | some v => rfl

theorem firstWinScan_flip (b : Board) (p q : Nat) (hne : p ≠ q) :
    firstWinScan b p q = Option.map Bool.not (firstWinScan b q p) := by
  unfold firstWinScan
  rw [← findSome?_map_not]
  congr 1
  funext rc
  exact cellWinFlag_flip b p q hne rc

/-- C10: the evaluator is antisymmetric in the queried side, and the
row-major win scan flips its verdict (same first anchoring cell, opposite
sign) when the perspective is swapped. -/
theorem evaluateBoard_antisymm (b : Board) (p : Nat) (hp : p = 1 ∨ p = 2) :
    evaluateBoard b p = - evaluateBoard b (oppSide p) ∧
    firstWinScan b p (oppSide p) =
      Option.map Bool.not (firstWinScan b (oppSide p) p) := by
  rcases hp with rfl | rfl
  · refine ⟨?_, firstWinScan_flip b 1 2 (by omega)⟩
    have e1 : evaluateBoard b 1 =
        (match firstWinScan b 1 2 with
         | some true => (10000 : Int)
         | some false => -10000
         | none => centerScore b 1 2 + horizScore b 1 2 + vertScore b 1 2 +
             diagRScore b 1 2 + diagLScore b 1 2) := rfl
    have e2 : evaluateBoard b (oppSide 1) =
        (match firstWinScan b 2 1 with
         | some true => (10000 : Int)
         | some false => -10000
         | none => centerScore b 2 1 + horizScore b 2 1 + vertScore b 2 1 +
             diagRScore b 2 1 + diagLScore b 2 1) := rfl
    rw [e1, e2, firstWinScan_flip b 1 2 (by omega)]
    cases hw : firstWinScan b 2 1 with
    | none =>
      simp only [Option.map_none']
      rw [centerScore_swap b 1 2 (by omega), horizScore_swap b 1 2 (by omega),
        vertScore_swap b 1 2 (by omega), diagRScore_swap b 1 2 (by omega),
        diagLScore_swap b 1 2 (by omega)]
      ring
    | some v =>
      cases v
      · show (10000 : Int) = -(-10000)
        norm_num
      · show (-10000 : Int) = -(10000)
        norm_num
  · refine ⟨?_, firstWinScan_flip b 2 1 (by omega)⟩
    have e1 : evaluateBoard b 2 =
        (match firstWinScan b 2 1 with
         | some true => (10000 : Int)
         | some false => -10000
         | none => centerScore b 2 1 + horizScore b 2 1 + vertScore b 2 1 +
             diagRScore b 2 1 + diagLScore b 2 1) := rfl
    have e2 : evaluateBoard b (oppSide 2) =
        (match firstWinScan b 1 2 with
         | some true => (10000 : Int)
         | some false => -10000
         | none => centerScore b 1 2 + horizScore b 1 2 + vertScore b 1 2 +
             diagRScore b 1 2 + diagLScore b 1 2) := rfl
    rw [e1, e2, firstWinScan_flip b 2 1 (by omega)]
    cases hw : firstWinScan b 1 2 with
    | none =>
      simp only [Option.map_none']
      rw [centerScore_swap b 2 1 (by omega), horizScore_swap b 2 1 (by omega),
        vertScore_swap b 2 1 (by omega), diagRScore_swap b 2 1 (by omega),
        diagLScore_swap b 2 1 (by omega)]
      ring
    | some v =>
      cases v
      · show (10000 : Int) = -(-10000)
        norm_num
      · show (-10000 : Int) = -(10000)
        norm_num

/-- Witness for C10 at a concrete board. -/
theorem evaluateBoard_antisymm_witness :
    evaluateBoard drawBoard 1 = - evaluateBoard drawBoard (oppSide 1) ∧
    firstWinScan drawBoard 1 (oppSide 1) =
      Option.map Bool.not (firstWinScan drawBoard (oppSide 1) 1) :=
  evaluateBoard_antisymm drawBoard 1 (Or.inl rfl)
